import Mathlib

/-!
Shallow embedding of the DeepRobots swimming-robot model
(`Robots/HoneySwimmer_v2.py`) and of the discretization / angle-wrapping
utilities of `OpenAiGym/.../DeepRobot_env_Discrete.py`.

Modelling conventions:
* Python floats are modelled as exact rationals (`ℚ`); each arithmetic
  operation of the source is exact in the model.
* `math.pi` is modelled by `pyPi`, the exact rational value of the IEEE-754
  double that Python's `math.pi` denotes (`884279719003555 / 2^48`).
* Python's float `%` operator follows the sign of the divisor:
  `x % y = x - y * floor (x / y)`; this is `pymod` below.
* `scipy.integrate.odeint` integrates the ODE whose last two components are
  the constant commanded joint rates, so the joint angles evolve exactly
  linearly (`a + adot * t`).  The remaining components (`body_x`, `x`, `y`,
  `theta`) solve a transcendental ODE; they are abstracted by an oracle
  (`Oracle` below) supplied as a parameter: every theorem quantifies over
  the oracle, every concrete witness fixes one.
* Python exceptions (`check_angles`'s `raise`, `ZeroDivisionError` in the
  bound-crossing-time computation) are modelled by an error component in
  `move`'s result.  Since Python has already mutated `self` when a later
  statement raises, `move` returns the mutated state together with the
  error.
* `ℚ` division is total with `x / 0 = 0`.  The only divisions the source
  performs are the crossing times (modelled with an explicit
  `ZeroDivisionError` case), the weights `t1/(t1+t2)` (guarded by the
  source's own `t1+t2 == 0` test) and the scale `(t1+t2)/(t_interval *
  timestep)`; theorems about the latter carry a nonzero-divisor hypothesis
  so that the total-division semantics agrees with Python's.
-/

/-- Exact rational value of the IEEE-754 double `math.pi`. -/
def pyPi : ℚ := 884279719003555 / 281474976710656

/-- Tie tolerance `0.0000001` used by `move` to decide whether the two
bound-crossing times coincide. -/
def moveEps : ℚ := 1 / 10000000

/-- Default `tolerance` argument (`0.000000001`) of
`round_angles_to_limits`. -/
def limitTol : ℚ := 1 / 1000000000

/-- Python float modulo: result has the sign of the divisor,
`x % y = x - y * ⌊x / y⌋`. -/
def pymod (x y : ℚ) : ℚ := x - y * ⌊x / y⌋

/-- The state of a `SwimmingRobot` object: every instance attribute that the
class reads or writes.  `state` mirrors the `self.state = (a1, a2)` tuple. -/
structure SwimmingRobot where
  body_x : ℚ
  x : ℚ
  y : ℚ
  theta : ℚ
  a1 : ℚ
  a2 : ℚ
  a1dot : ℚ
  a2dot : ℚ
  time : ℚ
  t_interval : ℚ
  timestep : ℚ
  L : ℚ
  k : ℚ
  state : ℚ × ℚ
deriving Repr, DecidableEq

/-- The constructor `SwimmingRobot.__init__` with its default arguments. -/
def initRobot : SwimmingRobot :=
  { body_x := 0, x := 0, y := 0, theta := 0
    a1 := -pyPi / 4, a2 := pyPi / 4, a1dot := 0, a2dot := 0, time := 0
    t_interval := 1 / 4, timestep := 1, L := 2, k := 1
    state := (-pyPi / 4, pyPi / 4) }

/-- The core of `enforce_angle_range`: wrap one angle using Python float
`%`.  The method reads an attribute, transforms it with this function and
writes it back; `update_params` below applies it to the right attributes. -/
def enforce_angle_range (angle : ℚ) : ℚ :=
  if angle > pyPi then
    if pymod angle (2 * pyPi) > pyPi then pymod angle (2 * pyPi) - 2 * pyPi
    else pymod angle (2 * pyPi)
  else if angle < -pyPi then
    if pymod angle (-(2 * pyPi)) < -pyPi then pymod angle (-(2 * pyPi)) + 2 * pyPi
    else pymod angle (-(2 * pyPi))
  else angle

/-- Rounding of `round_angles_to_limits` on `self.a1` (upper limit checked
first). -/
def snapA1 (v : ℚ) : ℚ :=
  if |v - pyPi / 2| < limitTol then pyPi / 2
  else if |v + pyPi / 2| < limitTol then -pyPi / 2
  else v

/-- Rounding of `round_angles_to_limits` on `self.a2` (lower limit checked
first). -/
def snapA2 (v : ℚ) : ℚ :=
  if |v + pyPi / 2| < limitTol then -pyPi / 2
  else if |v - pyPi / 2| < limitTol then pyPi / 2
  else v

/-- The method `round_angles_to_limits` with the default tolerance. -/
def round_angles_to_limits (s : SwimmingRobot) : SwimmingRobot :=
  { s with a1 := snapA1 s.a1, a2 := snapA2 s.a2 }

/-- The method `check_angles`: `true` iff neither `raise` fires. -/
def check_angles (s : SwimmingRobot) : Bool :=
  if s.a1 < -pyPi / 2 ∨ pyPi / 2 < s.a1 then false
  else if s.a2 < -pyPi / 2 ∨ pyPi / 2 < s.a2 then false
  else true

/-- The 6-tuple returned by `perform_integration`. -/
structure IntOut where
  body_x : ℚ
  x : ℚ
  y : ℚ
  theta : ℚ
  a1 : ℚ
  a2 : ℚ
deriving Repr, DecidableEq

/-- Abstraction of the numerically integrated group variables: given the
state at the start of the integration, the action and the duration, an
oracle yields the final `(body_x, x, y, theta)`. -/
def Oracle : Type := SwimmingRobot → (ℚ × ℚ) → ℚ → ℚ × ℚ × ℚ × ℚ

/-- The method `perform_integration`: for duration `0` the current values are
returned
unchanged; otherwise the group variables come from the oracle and the joint
angles follow their exact linear solutions. -/
def perform_integration (g : Oracle) (s : SwimmingRobot) (action : ℚ × ℚ)
    (t_int : ℚ) : IntOut :=
  if t_int = 0 then
    ⟨s.body_x, s.x, s.y, s.theta, s.a1, s.a2⟩
  else
    let go := g s action t_int
    ⟨go.1, go.2.1, go.2.2.1, go.2.2.2,
     s.a1 + action.1 * t_int, s.a2 + action.2 * t_int⟩

/-- The method `update_params`: store the integration output, wrap `theta`
always,
wrap the joint angles only when limits are *not* enforced, then apply
`round_angles_to_limits`. -/
def update_params (s : SwimmingRobot) (o : IntOut)
    (enforce_angle_limits : Bool) : SwimmingRobot :=
  let a1' := if enforce_angle_limits then o.a1 else enforce_angle_range o.a1
  let a2' := if enforce_angle_limits then o.a2 else enforce_angle_range o.a2
  round_angles_to_limits
    { s with body_x := o.body_x, x := o.x, y := o.y,
             theta := enforce_angle_range o.theta, a1 := a1', a2 := a2' }

/-- The method `update_alpha_dots` (with `t2 = None` modelled as `t2 = 0`,
as the
source does).  Note the scale condition compares `t1 + t2` with
`t_interval + timestep` (a sum) while the scale divides by
`t_interval * timestep` (a product). -/
def update_alpha_dots (s : SwimmingRobot)
    (a1dot1 a2dot1 t1 a1dot2 a2dot2 t2 : ℚ) : SwimmingRobot :=
  let c3 : ℚ :=
    if t1 + t2 < s.t_interval + s.timestep
    then (t1 + t2) / (s.t_interval * s.timestep) else 1
  let c1 : ℚ := if t1 + t2 = 0 then 0 else t1 / (t1 + t2)
  let c2 : ℚ := if t1 + t2 = 0 then 0 else t2 / (t1 + t2)
  { s with a1dot := (c1 * a1dot1 + c2 * a1dot2) * c3,
           a2dot := (c1 * a2dot1 + c2 * a2dot2) * c3 }

/-- Errors a `move` call can surface: the `check_angles` exception and
`ZeroDivisionError` from a bound-crossing-time division. -/
inductive MoveErr where
  | angleLimit : MoveErr
  | zeroDiv : MoveErr
deriving Repr, DecidableEq

/-- Bound-crossing time for `a1`: nominal `t` when the unconstrained endpoint
stays in range; otherwise the source divides by `a1dot` — using the bound
`-pi/2` below the lower limit but the constant `0` above the upper limit. -/
def alpha1_t (a1 a1dot t : ℚ) : Except MoveErr ℚ :=
  if a1 + a1dot * t < -pyPi / 2 then
    if a1dot = 0 then .error .zeroDiv else .ok ((-pyPi / 2 - a1) / a1dot)
  else if a1 + a1dot * t > pyPi / 2 then
    if a1dot = 0 then .error .zeroDiv else .ok ((0 - a1) / a1dot)
  else .ok t

/-- Bound-crossing time for `a2`: the source uses the constant `0` below the
lower limit and the bound `pi/2` above the upper limit. -/
def alpha2_t (a2 a2dot t : ℚ) : Except MoveErr ℚ :=
  if a2 + a2dot * t < -pyPi / 2 then
    if a2dot = 0 then .error .zeroDiv else .ok ((0 - a2) / a2dot)
  else if a2 + a2dot * t > pyPi / 2 then
    if a2dot = 0 then .error .zeroDiv else .ok ((pyPi / 2 - a2) / a2dot)
  else .ok t

/-- The `abs(a1_t - a2_t) > 0.0000001` branch of `move`: two
sub-integrations, the joint that reaches its bound first is frozen for the
second one. -/
def two_move_branch (g : Oracle) (s0 : SwimmingRobot)
    (a1dot a2dot a1_t a2_t : ℚ) : SwimmingRobot :=
  let t1 := min a1_t a2_t
  let s1 := update_params s0 (perform_integration g s0 (a1dot, a2dot) t1) true
  if a2_t > a1_t then
    let t2 := a2_t - a1_t
    let s2 := update_params s1 (perform_integration g s1 (0, a2dot) t2) true
    update_alpha_dots s2 a1dot a2dot t1 0 a2dot t2
  else
    let t2 := a1_t - a2_t
    let s2 := update_params s1 (perform_integration g s1 (a1dot, 0) t2) true
    update_alpha_dots s2 a1dot a2dot t1 a1dot 0 t2

/-- The single-sub-integration branch of `move`: the nominal duration is
replaced by `a1_t` (a no-op when they already agree). -/
def single_move_branch (g : Oracle) (s0 : SwimmingRobot)
    (a1dot a2dot a1_t : ℚ) : SwimmingRobot :=
  let s1 := update_params s0 (perform_integration g s0 (a1dot, a2dot) a1_t) true
  update_alpha_dots s1 a1dot a2dot a1_t 0 0 0

/-- The limit-enforcing part of `move` after `check_angles` has passed. -/
def enforced_move (g : Oracle) (s0 : SwimmingRobot)
    (a1dot a2dot t : ℚ) : Except MoveErr SwimmingRobot :=
  match alpha1_t s0.a1 a1dot t, alpha2_t s0.a2 a2dot t with
  | .error e, _ => .error e
  | .ok _, .error e => .error e
  | .ok a1_t, .ok a2_t =>
    .ok (if |a1_t - a2_t| > moveEps
         then two_move_branch g s0 a1dot a2dot a1_t a2_t
         else single_move_branch g s0 a1dot a2dot a1_t)

/-- The method `move`.  Field `self.timestep` is assigned *before*
`check_angles` runs, so a
failing precondition still leaves that assignment behind; the result pairs
the final state of the object with the surfaced error, if any. -/
def move (g : Oracle) (s : SwimmingRobot) (action : ℚ × ℚ) (timestep : ℚ)
    (enforce_angle_limits : Bool) : SwimmingRobot × Option MoveErr :=
  let s0 := { s with timestep := timestep }
  let t := timestep * s0.t_interval
  if enforce_angle_limits then
    if check_angles s0 then
      match enforced_move g s0 action.1 action.2 t with
      | .ok s' => ({ s' with state := (s'.a1, s'.a2) }, none)
      | .error e => (s0, some e)
    else (s0, some .angleLimit)
  else
    let s1 := update_params s0 (perform_integration g s0 action t) false
    let s2 := update_alpha_dots s1 action.1 action.2 t 0 0 0
    ({ s2 with state := (s2.a1, s2.a2) }, none)

/-- The method `randomize_state`: the two uniform draws are passed in as
`r1`, `r2`.
The `enforce_opposite_angle_signs` flag is accepted but never read by the
source. -/
def randomize_state (s : SwimmingRobot) (enforce_opposite_angle_signs : Bool)
    (r1 r2 : ℚ) : SwimmingRobot × (ℚ × ℚ) :=
  let s' := { s with a1 := r1, a2 := r2, state := (r1, r2) }
  (s', s'.state)

/-- Both stored joint angles lie within the configured limits
`[-pi/2, pi/2]`. -/
def jointsInLimits (s : SwimmingRobot) : Prop :=
  -pyPi / 2 ≤ s.a1 ∧ s.a1 ≤ pyPi / 2 ∧ -pyPi / 2 ≤ s.a2 ∧ s.a2 ≤ pyPi / 2

/-- The static method `DeepRobot.discretize` from the gym environment. -/
def discretize (val interval : ℚ) : ℚ :=
  let quotient := val / interval
  let fl : ℤ := ⌊quotient⌋
  let diff := quotient - fl
  if diff ≥ 1 / 2 then (fl + 1) * interval else fl * interval

/-- Oracle returning zero group displacements; used by concrete instances. -/
def zeroOracle : Oracle := fun _ _ _ => (0, 0, 0, 0)

/-- The object built by the constructor call
`SwimmingRobot(theta=-pi, a1=0, a2=0)`: a legal initial state whose heading
sits exactly on the wrap boundary. -/
def edgeRobot : SwimmingRobot :=
  { initRobot with theta := -pyPi, a1 := 0, a2 := 0, state := (0, 0) }

/-- A robot whose joints start at the origin of joint space. -/
def flatRobot : SwimmingRobot := { initRobot with a1 := 0, a2 := 0, state := (0, 0) }

/-- A robot whose proximal joint angle is far outside the limits. -/
def badRobot : SwimmingRobot := { initRobot with a1 := pyPi, state := (pyPi, pyPi / 4) }

/-- A flat robot with `t_interval = 1`. -/
def unitRobot : SwimmingRobot := { flatRobot with t_interval := 1 }

/-- A flat robot with `t_interval = 3`. -/
def slowRobot : SwimmingRobot := { flatRobot with t_interval := 3 }

lemma pyPi_pos : 0 < pyPi := by norm_num [pyPi]

lemma limitTol_pos : 0 < limitTol := by norm_num [limitTol]

lemma moveEps_pos : 0 < moveEps := by norm_num [moveEps]

lemma pymod_eq {y : ℚ} (x : ℚ) (hy : y ≠ 0) :
    pymod x y = y * Int.fract (x / y) := by
  have h : y * (x / y) = x := by field_simp
  unfold pymod Int.fract
  rw [mul_sub, h]

lemma pymod_mem_pos {y : ℚ} (x : ℚ) (hy : 0 < y) :
    0 ≤ pymod x y ∧ pymod x y < y := by
  rw [pymod_eq x (ne_of_gt hy)]
  constructor
  · exact mul_nonneg hy.le (Int.fract_nonneg _)
  · have h1 : Int.fract (x / y) < 1 := Int.fract_lt_one _
    calc y * Int.fract (x / y) < y * 1 := by
          exact mul_lt_mul_of_pos_left h1 hy
      _ = y := mul_one y

lemma pymod_mem_neg {y : ℚ} (x : ℚ) (hy : y < 0) :
    y < pymod x y ∧ pymod x y ≤ 0 := by
  rw [pymod_eq x (ne_of_lt hy)]
  constructor
  · have h1 : Int.fract (x / y) < 1 := Int.fract_lt_one _
    calc y = y * 1 := (mul_one y).symm
      _ < y * Int.fract (x / y) := by exact mul_lt_mul_of_neg_left h1 hy
  · exact mul_nonpos_of_nonpos_of_nonneg hy.le (Int.fract_nonneg _)

lemma enforce_angle_range_mem (x : ℚ) :
    -pyPi ≤ enforce_angle_range x ∧ enforce_angle_range x ≤ pyPi := by
  have hpi := pyPi_pos
  unfold enforce_angle_range
  split_ifs with h1 h2 h3 h4
  · have hb := pymod_mem_pos x (by linarith : (0:ℚ) < 2 * pyPi)
    constructor <;> linarith [hb.1, hb.2]
  · have hb := pymod_mem_pos x (by linarith : (0:ℚ) < 2 * pyPi)
    push_neg at h2
    constructor <;> linarith [hb.1, hb.2]
  · have hb := pymod_mem_neg x (by linarith : -(2 * pyPi) < 0)
    constructor <;> linarith [hb.1, hb.2]
  · have hb := pymod_mem_neg x (by linarith : -(2 * pyPi) < 0)
    push_neg at h4
    constructor <;> linarith [hb.1, hb.2]
  · push_neg at h1 h3
    exact ⟨h3, h1⟩

lemma enforce_angle_range_fix : enforce_angle_range (-pyPi) = -pyPi := by
  have hpi := pyPi_pos
  unfold enforce_angle_range
  rw [if_neg (by linarith), if_neg (by linarith)]

lemma enforce_angle_range_id {x : ℚ} (h1 : -pyPi ≤ x) (h2 : x ≤ pyPi) :
    enforce_angle_range x = x := by
  unfold enforce_angle_range
  rw [if_neg (by linarith), if_neg (by linarith)]

lemma snapA1_close (v : ℚ) : |snapA1 v - v| < limitTol := by
  unfold snapA1
  split_ifs with h1 h2
  · rw [abs_sub_comm] at h1
    exact h1
  · rw [show -pyPi / 2 - v = -(v + pyPi / 2) by ring, abs_neg]
    exact h2
  · simpa using limitTol_pos

lemma snapA2_close (v : ℚ) : |snapA2 v - v| < limitTol := by
  unfold snapA2
  split_ifs with h1 h2
  · rw [show -pyPi / 2 - v = -(v + pyPi / 2) by ring, abs_neg]
    exact h1
  · rw [abs_sub_comm] at h2
    exact h2
  · simpa using limitTol_pos

lemma snapA1_mem {v : ℚ} (h1 : -pyPi / 2 - limitTol < v)
    (h2 : v < pyPi / 2 + limitTol) :
    -pyPi / 2 ≤ snapA1 v ∧ snapA1 v ≤ pyPi / 2 := by
  have hpi := pyPi_pos
  have htol := limitTol_pos
  unfold snapA1
  split_ifs with ha hb
  · constructor <;> linarith
  · constructor <;> linarith
  · rw [not_lt] at ha hb
    rcases le_abs.mp ha with h | h
    · linarith
    · rcases le_abs.mp hb with h' | h'
      · constructor <;> linarith
      · linarith

lemma snapA2_mem {v : ℚ} (h1 : -pyPi / 2 - limitTol < v)
    (h2 : v < pyPi / 2 + limitTol) :
    -pyPi / 2 ≤ snapA2 v ∧ snapA2 v ≤ pyPi / 2 := by
  have hpi := pyPi_pos
  have htol := limitTol_pos
  unfold snapA2
  split_ifs with ha hb
  · constructor <;> linarith
  · constructor <;> linarith
  · rw [not_lt] at ha hb
    rcases le_abs.mp hb with h | h
    · linarith
    · rcases le_abs.mp ha with h' | h'
      · constructor <;> linarith
      · linarith

lemma check_angles_spec {s : SwimmingRobot} (h : check_angles s = true) :
    -pyPi / 2 ≤ s.a1 ∧ s.a1 ≤ pyPi / 2 ∧ -pyPi / 2 ≤ s.a2 ∧ s.a2 ≤ pyPi / 2 := by
  unfold check_angles at h
  split_ifs at h with h1 h2
  push_neg at h1 h2
  exact ⟨h1.1, h1.2, h2.1, h2.2⟩

lemma alpha1_t_target {a adot t τ : ℚ} (h : alpha1_t a adot t = .ok τ)
    (ha1 : -pyPi / 2 ≤ a) (ha2 : a ≤ pyPi / 2) :
    -pyPi / 2 ≤ a + adot * τ ∧ a + adot * τ ≤ pyPi / 2 := by
  have hpi := pyPi_pos
  unfold alpha1_t at h
  by_cases hlow : a + adot * t < -pyPi / 2
  · rw [if_pos hlow] at h
    by_cases h0 : adot = 0
    · rw [if_pos h0] at h
      exact absurd h (by simp)
    · rw [if_neg h0] at h
      simp only [Except.ok.injEq] at h
      have hv : adot * ((-pyPi / 2 - a) / adot) = -pyPi / 2 - a := by
        field_simp
        ring
      rw [← h, hv]
      constructor <;> linarith
  · rw [if_neg hlow] at h
    by_cases hhigh : a + adot * t > pyPi / 2
    · rw [if_pos hhigh] at h
      by_cases h0 : adot = 0
      · rw [if_pos h0] at h
        exact absurd h (by simp)
      · rw [if_neg h0] at h
        simp only [Except.ok.injEq] at h
        have hv : adot * ((0 - a) / adot) = 0 - a := by
          field_simp
          ring
        rw [← h, hv]
        constructor <;> linarith
    · rw [if_neg hhigh] at h
      simp only [Except.ok.injEq] at h
      push_neg at hlow hhigh
      rw [← h]
      constructor <;> linarith

lemma alpha2_t_target {a adot t τ : ℚ} (h : alpha2_t a adot t = .ok τ)
    (ha1 : -pyPi / 2 ≤ a) (ha2 : a ≤ pyPi / 2) :
    -pyPi / 2 ≤ a + adot * τ ∧ a + adot * τ ≤ pyPi / 2 := by
  have hpi := pyPi_pos
  unfold alpha2_t at h
  by_cases hlow : a + adot * t < -pyPi / 2
  · rw [if_pos hlow] at h
    by_cases h0 : adot = 0
    · rw [if_pos h0] at h
      exact absurd h (by simp)
    · rw [if_neg h0] at h
      simp only [Except.ok.injEq] at h
      have hv : adot * ((0 - a) / adot) = 0 - a := by
        field_simp
        ring
      rw [← h, hv]
      constructor <;> linarith
  · rw [if_neg hlow] at h
    by_cases hhigh : a + adot * t > pyPi / 2
    · rw [if_pos hhigh] at h
      by_cases h0 : adot = 0
      · rw [if_pos h0] at h
        exact absurd h (by simp)
      · rw [if_neg h0] at h
        simp only [Except.ok.injEq] at h
        have hv : adot * ((pyPi / 2 - a) / adot) = pyPi / 2 - a := by
          field_simp
          ring
        rw [← h, hv]
        constructor <;> linarith
    · rw [if_neg hhigh] at h
      simp only [Except.ok.injEq] at h
      push_neg at hlow hhigh
      rw [← h]
      constructor <;> linarith

lemma update_params_a1 (s : SwimmingRobot) (o : IntOut) :
    (update_params s o true).a1 = snapA1 o.a1 := rfl

lemma update_params_a2 (s : SwimmingRobot) (o : IntOut) :
    (update_params s o true).a2 = snapA2 o.a2 := rfl

lemma update_params_theta (s : SwimmingRobot) (o : IntOut) (e : Bool) :
    (update_params s o e).theta = enforce_angle_range o.theta := rfl

lemma update_params_time (s : SwimmingRobot) (o : IntOut) (e : Bool) :
    (update_params s o e).time = s.time := rfl

lemma update_params_t_interval (s : SwimmingRobot) (o : IntOut) (e : Bool) :
    (update_params s o e).t_interval = s.t_interval := rfl

lemma update_params_timestep (s : SwimmingRobot) (o : IntOut) (e : Bool) :
    (update_params s o e).timestep = s.timestep := rfl

lemma update_alpha_dots_a1 (s : SwimmingRobot) (v w t1 v' w' t2 : ℚ) :
    (update_alpha_dots s v w t1 v' w' t2).a1 = s.a1 := rfl

lemma update_alpha_dots_a2 (s : SwimmingRobot) (v w t1 v' w' t2 : ℚ) :
    (update_alpha_dots s v w t1 v' w' t2).a2 = s.a2 := rfl

lemma update_alpha_dots_theta (s : SwimmingRobot) (v w t1 v' w' t2 : ℚ) :
    (update_alpha_dots s v w t1 v' w' t2).theta = s.theta := rfl

lemma update_alpha_dots_time (s : SwimmingRobot) (v w t1 v' w' t2 : ℚ) :
    (update_alpha_dots s v w t1 v' w' t2).time = s.time := rfl

lemma update_alpha_dots_a1dot (s : SwimmingRobot) (v w t1 v' w' t2 : ℚ) :
    (update_alpha_dots s v w t1 v' w' t2).a1dot =
      ((if t1 + t2 = 0 then 0 else t1 / (t1 + t2)) * v +
       (if t1 + t2 = 0 then 0 else t2 / (t1 + t2)) * v') *
      (if t1 + t2 < s.t_interval + s.timestep
       then (t1 + t2) / (s.t_interval * s.timestep) else 1) := rfl

lemma update_alpha_dots_a2dot (s : SwimmingRobot) (v w t1 v' w' t2 : ℚ) :
    (update_alpha_dots s v w t1 v' w' t2).a2dot =
      ((if t1 + t2 = 0 then 0 else t1 / (t1 + t2)) * w +
       (if t1 + t2 = 0 then 0 else t2 / (t1 + t2)) * w') *
      (if t1 + t2 < s.t_interval + s.timestep
       then (t1 + t2) / (s.t_interval * s.timestep) else 1) := rfl

lemma perform_integration_a1 (g : Oracle) (s : SwimmingRobot)
    (action : ℚ × ℚ) (t : ℚ) :
    (perform_integration g s action t).a1 = s.a1 + action.1 * t := by
  unfold perform_integration
  split_ifs with h
  · simp [h]
  · rfl

lemma perform_integration_a2 (g : Oracle) (s : SwimmingRobot)
    (action : ℚ × ℚ) (t : ℚ) :
    (perform_integration g s action t).a2 = s.a2 + action.2 * t := by
  unfold perform_integration
  split_ifs with h
  · simp [h]
  · rfl

lemma two_move_time (g : Oracle) (s0 : SwimmingRobot) (a1d a2d τ1 τ2 : ℚ) :
    (two_move_branch g s0 a1d a2d τ1 τ2).time = s0.time := by
  unfold two_move_branch
  split_ifs <;> rfl

lemma single_move_time (g : Oracle) (s0 : SwimmingRobot) (a1d a2d τ1 : ℚ) :
    (single_move_branch g s0 a1d a2d τ1).time = s0.time := rfl

lemma enforced_move_ok_inv {g : Oracle} {s0 s'' : SwimmingRobot}
    {a1d a2d t : ℚ} (h : enforced_move g s0 a1d a2d t = .ok s'') :
    ∃ τ1 τ2, alpha1_t s0.a1 a1d t = .ok τ1 ∧ alpha2_t s0.a2 a2d t = .ok τ2 ∧
      s'' = if |τ1 - τ2| > moveEps
            then two_move_branch g s0 a1d a2d τ1 τ2
            else single_move_branch g s0 a1d a2d τ1 := by
  unfold enforced_move at h
  cases h1 : alpha1_t s0.a1 a1d t <;> rw [h1] at h
  · exact absurd h (by simp)
  · cases h2 : alpha2_t s0.a2 a2d t <;> rw [h2] at h
    · exact absurd h (by simp)
    · simp only [Except.ok.injEq] at h
      exact ⟨_, _, rfl, rfl, h.symm⟩

lemma move_ok_inv {g : Oracle} {s s' : SwimmingRobot} {action : ℚ × ℚ}
    {ts : ℚ} {enf : Bool} (h : move g s action ts enf = (s', none))
    (henf : enf = true) :
    ∃ s'', check_angles { s with timestep := ts } = true ∧
      enforced_move g { s with timestep := ts } action.1 action.2
        (ts * s.t_interval) = .ok s'' ∧
      s' = { s'' with state := (s''.a1, s''.a2) } := by
  subst henf
  unfold move at h
  simp only [if_true] at h
  by_cases hchk : check_angles { s with timestep := ts } = true
  · rw [if_pos hchk] at h
    cases hres : enforced_move g { s with timestep := ts } action.1 action.2
        (ts * ({ s with timestep := ts } : SwimmingRobot).t_interval) with
    | error e =>
        rw [hres] at h
        exact absurd h (by simp)
    | ok s2 =>
        rw [hres] at h
        simp only [Prod.mk.injEq] at h
        exact ⟨s2, hchk, rfl, h.1.symm⟩
  · rw [if_neg hchk] at h
    exact absurd h (by simp)

lemma snapA1_mem_of_mem {v : ℚ} (h1 : -pyPi / 2 ≤ v) (h2 : v ≤ pyPi / 2) :
    -pyPi / 2 ≤ snapA1 v ∧ snapA1 v ≤ pyPi / 2 := by
  have htol := limitTol_pos
  exact snapA1_mem (by linarith) (by linarith)

lemma snapA2_mem_of_mem {v : ℚ} (h1 : -pyPi / 2 ≤ v) (h2 : v ≤ pyPi / 2) :
    -pyPi / 2 ≤ snapA2 v ∧ snapA2 v ≤ pyPi / 2 := by
  have htol := limitTol_pos
  exact snapA2_mem (by linarith) (by linarith)

lemma enforced_core_mem {g : Oracle} {s0 : SwimmingRobot} {a1d a2d t τ1 τ2 : ℚ}
    (hb1 : -pyPi / 2 ≤ s0.a1) (hb2 : s0.a1 ≤ pyPi / 2)
    (hb3 : -pyPi / 2 ≤ s0.a2) (hb4 : s0.a2 ≤ pyPi / 2)
    (h1 : alpha1_t s0.a1 a1d t = .ok τ1)
    (h2 : alpha2_t s0.a2 a2d t = .ok τ2)
    (htie : τ1 = τ2 ∨ |τ1 - τ2| > moveEps) :
    jointsInLimits (if |τ1 - τ2| > moveEps
                    then two_move_branch g s0 a1d a2d τ1 τ2
                    else single_move_branch g s0 a1d a2d τ1) := by
  unfold jointsInLimits
  have htar1 := alpha1_t_target h1 hb1 hb2
  have htar2 := alpha2_t_target h2 hb3 hb4
  rcases htie with htie | hgap
  · subst htie
    have hno : ¬ |τ1 - τ1| > moveEps := by
      simp [moveEps_pos.le]
    rw [if_neg hno]
    unfold single_move_branch
    rw [update_alpha_dots_a1, update_alpha_dots_a2, update_params_a1,
        update_params_a2, perform_integration_a1, perform_integration_a2]
    have m1 := snapA1_mem_of_mem htar1.1 htar1.2
    have m2 := snapA2_mem_of_mem htar2.1 htar2.2
    exact ⟨m1.1, m1.2, m2.1, m2.2⟩
  · rw [if_pos hgap]
    unfold two_move_branch
    by_cases hgt : τ2 > τ1
    · rw [if_pos hgt, min_eq_left hgt.le]
      rw [update_alpha_dots_a1, update_alpha_dots_a2, update_params_a1,
          update_params_a2, perform_integration_a1, perform_integration_a2,
          update_params_a1, update_params_a2, perform_integration_a1,
          perform_integration_a2]
      simp only [zero_mul, add_zero]
      -- the frozen joint a1 ends at its own target and is snapped twice
      have m1 := snapA1_mem_of_mem htar1.1 htar1.2
      have m1' := snapA1_mem_of_mem m1.1 m1.2
      -- joint a2 runs for its full crossing time, shifted by the rounding
      -- of its intermediate value
      have hclose := snapA2_close (s0.a2 + a2d * τ1)
      rw [abs_lt] at hclose
      have harg : snapA2 (s0.a2 + a2d * τ1) + a2d * (τ2 - τ1) =
          (s0.a2 + a2d * τ2) +
          (snapA2 (s0.a2 + a2d * τ1) - (s0.a2 + a2d * τ1)) := by ring
      have m2 := snapA2_mem (v := snapA2 (s0.a2 + a2d * τ1) + a2d * (τ2 - τ1))
        (by rw [harg]; linarith [htar2.1, hclose.1])
        (by rw [harg]; linarith [htar2.2, hclose.2])
      exact ⟨m1'.1, m1'.2, m2.1, m2.2⟩
    · have hlt : τ2 < τ1 := by
        rcases lt_trichotomy τ1 τ2 with h | h | h
        · exact absurd h hgt
        · subst h
          rw [sub_self, abs_zero] at hgap
          exact absurd hgap (by linarith [moveEps_pos])
        · exact h
      rw [if_neg hgt, min_eq_right hlt.le]
      rw [update_alpha_dots_a1, update_alpha_dots_a2, update_params_a1,
          update_params_a2, perform_integration_a1, perform_integration_a2,
          update_params_a1, update_params_a2, perform_integration_a1,
          perform_integration_a2]
      simp only [zero_mul, add_zero]
      have m2 := snapA2_mem_of_mem htar2.1 htar2.2
      have m2' := snapA2_mem_of_mem m2.1 m2.2
      have hclose := snapA1_close (s0.a1 + a1d * τ2)
      rw [abs_lt] at hclose
      have harg : snapA1 (s0.a1 + a1d * τ2) + a1d * (τ1 - τ2) =
          (s0.a1 + a1d * τ1) +
          (snapA1 (s0.a1 + a1d * τ2) - (s0.a1 + a1d * τ2)) := by ring
      have m1 := snapA1_mem (v := snapA1 (s0.a1 + a1d * τ2) + a1d * (τ1 - τ2))
        (by rw [harg]; linarith [htar1.1, hclose.1])
        (by rw [harg]; linarith [htar1.2, hclose.2])
      exact ⟨m1.1, m1.2, m2'.1, m2'.2⟩

lemma move_eq_of_ok {g : Oracle} {s : SwimmingRobot} {action : ℚ × ℚ}
    {ts τ1 τ2 : ℚ} (hchk : check_angles { s with timestep := ts } = true)
    (h1 : alpha1_t s.a1 action.1 (ts * s.t_interval) = .ok τ1)
    (h2 : alpha2_t s.a2 action.2 (ts * s.t_interval) = .ok τ2) :
    move g s action ts true =
      ({ (if |τ1 - τ2| > moveEps
          then two_move_branch g { s with timestep := ts } action.1 action.2 τ1 τ2
          else single_move_branch g { s with timestep := ts } action.1 action.2 τ1)
         with state :=
          ((if |τ1 - τ2| > moveEps
            then two_move_branch g { s with timestep := ts } action.1 action.2 τ1 τ2
            else single_move_branch g { s with timestep := ts } action.1 action.2 τ1).a1,
           (if |τ1 - τ2| > moveEps
            then two_move_branch g { s with timestep := ts } action.1 action.2 τ1 τ2
            else single_move_branch g { s with timestep := ts } action.1 action.2 τ1).a2) },
       none) := by
  simp only [move, enforced_move]
  rw [hchk]
  simp only [if_true]
  rw [show ({ s with timestep := ts } : SwimmingRobot).a1 = s.a1 from rfl,
      show ({ s with timestep := ts } : SwimmingRobot).a2 = s.a2 from rfl,
      show ({ s with timestep := ts } : SwimmingRobot).t_interval = s.t_interval
        from rfl, h1, h2]

lemma move_check_fail {g : Oracle} {s : SwimmingRobot} {action : ℚ × ℚ}
    {ts : ℚ} (hchk : check_angles { s with timestep := ts } = false) :
    move g s action ts true = ({ s with timestep := ts }, some .angleLimit) := by
  simp only [move]
  rw [hchk]
  simp

lemma move_not_enforced (g : Oracle) (s : SwimmingRobot) (action : ℚ × ℚ)
    (ts : ℚ) :
    move g s action ts false =
      (let s1 := update_params { s with timestep := ts }
                   (perform_integration g { s with timestep := ts } action
                     (ts * s.t_interval)) false
       let s2 := update_alpha_dots s1 action.1 action.2 (ts * s.t_interval) 0 0 0
       ({ s2 with state := (s2.a1, s2.a2) }, none)) := by
  simp only [move]
  rfl

lemma enforced_move_time {g : Oracle} {s0 s'' : SwimmingRobot}
    {a1d a2d t : ℚ} (h : enforced_move g s0 a1d a2d t = .ok s'') :
    s''.time = s0.time := by
  obtain ⟨τ1, τ2, h1, h2, hcore⟩ := enforced_move_ok_inv h
  rw [hcore]
  split_ifs
  · exact two_move_time g s0 a1d a2d τ1 τ2
  · exact single_move_time g s0 a1d a2d τ1

/-- C6 (amended): `move` never touches `self.time`: the elapsed time after
any call — limit-enforced or not, successful or failing — equals the
elapsed time before it.  (The original claim, that `move` advances
`elapsed_time` by the actual integrated duration, is refuted by
`C6_time_counterexample`.) -/
theorem C6_time_unchanged (g : Oracle) (s : SwimmingRobot) (action : ℚ × ℚ)
    (ts : ℚ) (enf : Bool) : ((move g s action ts enf).1).time = s.time := by
  cases enf
  · rw [move_not_enforced]
    simp only [update_alpha_dots_time, update_params_time]
  · by_cases hchk : check_angles { s with timestep := ts } = true
    · simp only [move, if_true]
      rw [hchk]
      simp only [if_true]
      cases hres : enforced_move g { s with timestep := ts } action.1 action.2
          (ts * ({ s with timestep := ts } : SwimmingRobot).t_interval) with
      | error e => rfl
      | ok s2 =>
          have := enforced_move_time hres
          simpa using this
    · rw [move_check_fail (Bool.not_eq_true _ ▸ hchk)]

lemma init_check : check_angles { initRobot with timestep := (1:ℚ) } = true := by
  simp only [check_angles, initRobot]
  norm_num [pyPi]

lemma init_alpha1 :
    alpha1_t initRobot.a1 0 (1 * initRobot.t_interval) = .ok (1/4) := by
  simp only [alpha1_t, initRobot]
  norm_num [pyPi]

lemma init_alpha2 :
    alpha2_t initRobot.a2 0 (1 * initRobot.t_interval) = .ok (1/4) := by
  simp only [alpha2_t, initRobot]
  norm_num [pyPi]

lemma tie_not_gap : ¬ |(1/4 : ℚ) - 1/4| > moveEps := by
  norm_num [moveEps]

lemma init_move_snd : (move zeroOracle initRobot (0, 0) 1 true).2 = none := by
  rw [@move_eq_of_ok zeroOracle initRobot (0, 0) 1 (1/4) (1/4)
      init_check init_alpha1 init_alpha2]

lemma init_move_eq : move zeroOracle initRobot (0, 0) 1 true =
    ((move zeroOracle initRobot (0, 0) 1 true).1, none) :=
  Prod.ext rfl init_move_snd

lemma two_move_theta_mem (g : Oracle) (s0 : SwimmingRobot)
    (a1d a2d τ1 τ2 : ℚ) :
    -pyPi ≤ (two_move_branch g s0 a1d a2d τ1 τ2).theta ∧
    (two_move_branch g s0 a1d a2d τ1 τ2).theta ≤ pyPi := by
  unfold two_move_branch
  split_ifs
  · rw [update_alpha_dots_theta, update_params_theta]
    exact enforce_angle_range_mem _
  · rw [update_alpha_dots_theta, update_params_theta]
    exact enforce_angle_range_mem _

lemma single_move_theta_mem (g : Oracle) (s0 : SwimmingRobot)
    (a1d a2d τ1 : ℚ) :
    -pyPi ≤ (single_move_branch g s0 a1d a2d τ1).theta ∧
    (single_move_branch g s0 a1d a2d τ1).theta ≤ pyPi := by
  unfold single_move_branch
  rw [update_alpha_dots_theta, update_params_theta]
  exact enforce_angle_range_mem _

/-- C5 (amended): after every successful `move` — with limit enforcement on
or off — the stored heading `theta` lies in the *closed* interval
`[-pi, pi]`.  (The original claim of the half-open interval `(-pi, pi]` is
refuted by `C5_theta_counterexample`: the boundary `-pi` is attainable.) -/
theorem C5_theta_closed_range {g : Oracle} {s s' : SwimmingRobot}
    {action : ℚ × ℚ} {ts : ℚ} {enf : Bool}
    (h : move g s action ts enf = (s', none)) :
    -pyPi ≤ s'.theta ∧ s'.theta ≤ pyPi := by
  cases enf
  · rw [move_not_enforced] at h
    simp only [Prod.mk.injEq] at h
    have hth : s'.theta =
        enforce_angle_range
          ((perform_integration g { s with timestep := ts } action
            (ts * s.t_interval)).theta) := by
      rw [← h.1]
      rfl
    rw [hth]
    exact enforce_angle_range_mem _
  · obtain ⟨s'', hchk, henf, hs'⟩ := move_ok_inv h rfl
    obtain ⟨τ1, τ2, h1, h2, hcore⟩ := enforced_move_ok_inv henf
    have hth : s'.theta = s''.theta := by rw [hs']
    rw [hth, hcore]
    split_ifs
    · exact two_move_theta_mem _ _ _ _ _ _
    · exact single_move_theta_mem _ _ _ _ _

/-- Witness for C5 at a concrete successful move. -/
theorem C5_theta_witness :
    -pyPi ≤ (move zeroOracle initRobot (0, 0) 1 true).1.theta ∧
    (move zeroOracle initRobot (0, 0) 1 true).1.theta ≤ pyPi :=
  C5_theta_closed_range init_move_eq

lemma edge_check : check_angles { edgeRobot with timestep := (1:ℚ) } = true := by
  simp only [check_angles, edgeRobot, initRobot]
  norm_num [pyPi]

lemma edge_alpha1 :
    alpha1_t edgeRobot.a1 10 (1 * edgeRobot.t_interval) = .ok 0 := by
  simp only [alpha1_t, edgeRobot, initRobot]
  norm_num [pyPi]

lemma edge_alpha2 :
    alpha2_t edgeRobot.a2 (-10) (1 * edgeRobot.t_interval) = .ok 0 := by
  simp only [alpha2_t, edgeRobot, initRobot]
  norm_num [pyPi]

lemma tie0_not_gap : ¬ |(0 : ℚ) - 0| > moveEps := by
  norm_num [moveEps]

/-- C5 counterexample: starting from the legal constructor state
`SwimmingRobot(theta=-pi, a1=0, a2=0)`, the action `(10, -10)` drives both
endpoints out of range with both computed bound-crossing times exactly `0`
(the `(0 - a)/adot` branches), so the single-move path integrates for
duration `0` and `perform_integration` takes its `t_interval == 0`
early-return — the ODE solver is never consulted (the oracle argument is
irrelevant) and the committed heading is the wrap of `-pi`, which is `-pi`
itself: the call returns normally with `theta = -pi ∉ (-pi, pi]`. -/
theorem C5_theta_counterexample :
    (move zeroOracle edgeRobot (10, -10) 1 true).2 = none ∧
    (move zeroOracle edgeRobot (10, -10) 1 true).1.theta = -pyPi ∧
    ¬ (-pyPi < -pyPi) := by
  have heq := @move_eq_of_ok zeroOracle edgeRobot (10, -10) 1 0 0
    edge_check edge_alpha1 edge_alpha2
  rw [if_neg tie0_not_gap] at heq
  refine ⟨by rw [heq], ?_, by simp⟩
  rw [heq]
  show (single_move_branch zeroOracle { edgeRobot with timestep := (1:ℚ) }
      10 (-10) 0).theta = -pyPi
  unfold single_move_branch
  rw [update_alpha_dots_theta, update_params_theta]
  show enforce_angle_range
      ((perform_integration zeroOracle { edgeRobot with timestep := (1:ℚ) }
        (10, -10) 0).theta) = -pyPi
  rw [perform_integration, if_pos rfl]
  show enforce_angle_range (-pyPi) = -pyPi
  exact enforce_angle_range_fix

lemma badRobot_check :
    check_angles { badRobot with timestep := (2:ℚ) } = false := by
  simp only [check_angles, badRobot, initRobot]
  norm_num [pyPi]

/-- C4 (amended): if a limit-enforced `move` begins with a joint angle
outside the configured limits, the call fails with the angle-limit error
surfaced to the caller and every stored field is left unmodified *except*
`timestep`, which the source assigns from the argument before running
`check_angles`. -/
theorem C4_precondition_violation {g : Oracle} {s : SwimmingRobot}
    {action : ℚ × ℚ} {ts : ℚ}
    (hchk : check_angles { s with timestep := ts } = false) :
    move g s action ts true = ({ s with timestep := ts }, some .angleLimit) :=
  move_check_fail hchk

/-- Witness for C4 at a robot whose proximal joint starts at `pi`. -/
theorem C4_precondition_witness :
    move zeroOracle badRobot (0, 0) 2 true =
      ({ badRobot with timestep := 2 }, some .angleLimit) :=
  C4_precondition_violation badRobot_check

/-- C4 counterexample to the claim as stated: the failing call *does*
modify the state — `timestep` changes from `1` to `2` even though the
error is surfaced. -/
theorem C4_counterexample :
    (move zeroOracle badRobot (0, 0) 2 true).2 = some .angleLimit ∧
    ((move zeroOracle badRobot (0, 0) 2 true).1).timestep = 2 ∧
    badRobot.timestep = 1 ∧ (2 : ℚ) ≠ 1 := by
  rw [move_check_fail badRobot_check]
  refine ⟨rfl, rfl, rfl, by norm_num⟩

lemma mk_timestep_t_interval (s : SwimmingRobot) (ts : ℚ) :
    ({ s with timestep := ts } : SwimmingRobot).t_interval = s.t_interval := rfl

lemma mk_timestep_timestep (s : SwimmingRobot) (ts : ℚ) :
    ({ s with timestep := ts } : SwimmingRobot).timestep = ts := rfl

/-- C6 counterexample to the claim as stated: a successful limit-enforced
move whose actual integrated duration is `1/4` leaves `elapsed_time` at `0`
instead of advancing it by that duration. -/
theorem C6_time_counterexample :
    (move zeroOracle initRobot (0, 0) 1 true).2 = none ∧
    ((move zeroOracle initRobot (0, 0) 1 true).1).time = 0 ∧
    initRobot.time + 1/4 ≠ 0 := by
  have heq := @move_eq_of_ok zeroOracle initRobot (0, 0) 1 (1/4) (1/4)
    init_check init_alpha1 init_alpha2
  rw [if_neg tie_not_gap] at heq
  refine ⟨by rw [heq], ?_, ?_⟩
  · rw [heq]
    show (single_move_branch zeroOracle { initRobot with timestep := (1:ℚ) }
        0 0 (1/4)).time = 0
    rw [single_move_time]
    rfl
  · show (0:ℚ) + 1/4 ≠ 0
    norm_num

/-- C1 (amended): a limit-enforced `move` that starts from in-range joint
angles and returns normally leaves both joint angles within
`[-pi/2, pi/2]`, *provided* the two computed bound-crossing times are
exactly equal or differ by more than the tie tolerance `0.0000001`.  (In
the near-tie band both joints are integrated for the first joint's crossing
time, so the joint with the smaller crossing time runs past its bound and
can overshoot its limit; see `C1_clamp_counterexample`.) -/
theorem C1_clamp_invariant {g : Oracle} {s s' : SwimmingRobot}
    {a1d a2d ts : ℚ} (hmv : move g s (a1d, a2d) ts true = (s', none))
    (htie : ∀ τ1 τ2, alpha1_t s.a1 a1d (ts * s.t_interval) = .ok τ1 →
        alpha2_t s.a2 a2d (ts * s.t_interval) = .ok τ2 →
        τ1 = τ2 ∨ |τ1 - τ2| > moveEps) :
    jointsInLimits s' := by
  obtain ⟨s'', hchk, henf, hs'⟩ := move_ok_inv hmv rfl
  obtain ⟨τ1, τ2, h1, h2, hcore⟩ := enforced_move_ok_inv henf
  have hb := check_angles_spec hchk
  have ht := htie τ1 τ2 h1 h2
  have hmem := @enforced_core_mem g _ _ _ _ τ1 τ2
    hb.1 hb.2.1 hb.2.2.1 hb.2.2.2 h1 h2 ht
  rw [← hcore] at hmem
  rw [hs']
  unfold jointsInLimits at hmem ⊢
  exact hmem

/-- Witness for C1 at a concrete successful move (a zero action, whose
crossing times tie exactly). -/
theorem C1_clamp_witness :
    jointsInLimits (move zeroOracle initRobot (0, 0) 1 true).1 := by
  refine C1_clamp_invariant init_move_eq ?_
  intro τ1 τ2 h1 h2
  rw [init_alpha1] at h1
  rw [init_alpha2] at h2
  simp only [Except.ok.injEq] at h1 h2
  left
  rw [← h1, ← h2]

lemma flat_check : check_angles { flatRobot with timestep := (1:ℚ) } = true := by
  simp only [check_angles, flatRobot, initRobot]
  norm_num [pyPi]

lemma flat_alpha1 :
    alpha1_t flatRobot.a1 (-(1000000000:ℚ)/7) (1 * flatRobot.t_interval) =
      .ok (7 * pyPi / 2000000000) := by
  simp only [alpha1_t, flatRobot, initRobot]
  norm_num [pyPi]

lemma flat_alpha2 :
    alpha2_t flatRobot.a2 1000000000 (1 * flatRobot.t_interval) =
      .ok (pyPi / 2000000000) := by
  simp only [alpha2_t, flatRobot, initRobot]
  norm_num [pyPi]

lemma flat_not_gap :
    ¬ |7 * pyPi / 2000000000 - pyPi / 2000000000| > moveEps := by
  rw [abs_of_nonneg (by norm_num [pyPi] :
    (0:ℚ) ≤ 7 * pyPi / 2000000000 - pyPi / 2000000000)]
  norm_num [moveEps, pyPi]

/-- C1 counterexample to the unconditional claim: from in-range joint
angles `(0, 0)`, the action `(-10^9/7, 10^9)` produces two bound-crossing
times that differ by less than the tie tolerance, so one sub-integration of
duration `7*pi/(2*10^9)` is used for both joints and the distal joint ends
at `7*pi/2`, far outside `[-pi/2, pi/2]` — yet the call returns normally. -/
theorem C1_clamp_counterexample :
    jointsInLimits flatRobot ∧
    (move zeroOracle flatRobot (-(1000000000:ℚ)/7, 1000000000) 1 true).2 = none ∧
    ¬ jointsInLimits
        (move zeroOracle flatRobot (-(1000000000:ℚ)/7, 1000000000) 1 true).1 := by
  have heq := @move_eq_of_ok zeroOracle flatRobot
      (-(1000000000:ℚ)/7, 1000000000) 1
      (7 * pyPi / 2000000000) (pyPi / 2000000000)
      flat_check flat_alpha1 flat_alpha2
  rw [if_neg flat_not_gap] at heq
  have hval : (move zeroOracle flatRobot
      (-(1000000000:ℚ)/7, 1000000000) 1 true).1.a2 = 7 * pyPi / 2 := by
    rw [heq]
    show (single_move_branch zeroOracle { flatRobot with timestep := (1:ℚ) }
        (-(1000000000:ℚ)/7) 1000000000 (7 * pyPi / 2000000000)).a2 =
      7 * pyPi / 2
    unfold single_move_branch
    rw [update_alpha_dots_a2, update_params_a2, perform_integration_a2]
    show snapA2 (0 + 1000000000 * (7 * pyPi / 2000000000)) = 7 * pyPi / 2
    have harg : (0:ℚ) + 1000000000 * (7 * pyPi / 2000000000) =
        7 * pyPi / 2 := by ring
    rw [harg]
    unfold snapA2
    rw [if_neg, if_neg]
    · rw [abs_of_nonneg (by norm_num [pyPi] :
        (0:ℚ) ≤ 7 * pyPi / 2 - pyPi / 2)]
      norm_num [pyPi, limitTol]
    · rw [abs_of_nonneg (by norm_num [pyPi] :
        (0:ℚ) ≤ 7 * pyPi / 2 + pyPi / 2)]
      norm_num [pyPi, limitTol]
  refine ⟨?_, by rw [heq], ?_⟩
  · unfold jointsInLimits
    norm_num [flatRobot, initRobot, pyPi]
  · intro hJ
    unfold jointsInLimits at hJ
    rw [hval] at hJ
    have := hJ.2.2.2
    have hpi := pyPi_pos
    linarith

/-- C3 (amended): when a limit-enforced `move` splits into two
sub-integrations (crossing times differing by more than the tolerance),
the stored joint velocities equal the time-weighted average of the two
sub-step actions over `t1 + t2`, scaled by
`(t1+t2)/(t_interval*timestep)` exactly when `t1 + t2` is less than
`t_interval + timestep` — the *sum* of the two parameters, not their
product as the claim states (see `C3_velocity_counterexample`). -/
theorem C3_velocity_average {g : Oracle} {s s' : SwimmingRobot}
    {a1d a2d ts τ1 τ2 : ℚ}
    (h1 : alpha1_t s.a1 a1d (ts * s.t_interval) = .ok τ1)
    (h2 : alpha2_t s.a2 a2d (ts * s.t_interval) = .ok τ2)
    (hgap : |τ1 - τ2| > moveEps)
    (hmv : move g s (a1d, a2d) ts true = (s', none)) :
    s'.a1dot = ((min τ1 τ2 * a1d +
        (max τ1 τ2 - min τ1 τ2) * (if τ1 < τ2 then 0 else a1d)) / max τ1 τ2) *
      (if max τ1 τ2 < s.t_interval + ts
       then max τ1 τ2 / (s.t_interval * ts) else 1) ∧
    s'.a2dot = ((min τ1 τ2 * a2d +
        (max τ1 τ2 - min τ1 τ2) * (if τ1 < τ2 then a2d else 0)) / max τ1 τ2) *
      (if max τ1 τ2 < s.t_interval + ts
       then max τ1 τ2 / (s.t_interval * ts) else 1) := by
  obtain ⟨s'', hchk, henf, hs'⟩ := move_ok_inv hmv rfl
  obtain ⟨τ1', τ2', h1', h2', hcore⟩ := enforced_move_ok_inv henf
  have e1 : (Except.ok τ1 : Except MoveErr ℚ) = .ok τ1' := h1.symm.trans h1'
  have e2 : (Except.ok τ2 : Except MoveErr ℚ) = .ok τ2' := h2.symm.trans h2'
  simp only [Except.ok.injEq] at e1 e2
  subst e1
  subst e2
  have hdot1 : s'.a1dot = s''.a1dot := by rw [hs']
  have hdot2 : s'.a2dot = s''.a2dot := by rw [hs']
  rw [hdot1, hdot2, hcore, if_pos hgap]
  unfold two_move_branch
  by_cases hlt : τ2 > τ1
  · rw [if_pos hlt, min_eq_left hlt.le, max_eq_right hlt.le]
    simp only [update_alpha_dots_a1dot, update_alpha_dots_a2dot,
      update_params_t_interval, update_params_timestep,
      mk_timestep_t_interval, mk_timestep_timestep]
    have hsum : τ1 + (τ2 - τ1) = τ2 := by ring
    rw [hsum]
    have hc1 : (if τ2 = 0 then (0:ℚ) else τ1 / τ2) = τ1 / τ2 := by
      split_ifs with h
      · rw [h, div_zero]
      · rfl
    have hc2 : (if τ2 = 0 then (0:ℚ) else (τ2 - τ1) / τ2) = (τ2 - τ1) / τ2 := by
      split_ifs with h
      · rw [h, div_zero]
      · rfl
    rw [hc1, hc2, if_pos hlt, if_pos hlt]
    constructor
    · ring
    · ring
  · have hlt' : τ2 < τ1 := by
      rcases lt_trichotomy τ1 τ2 with h | h | h
      · exact absurd h hlt
      · subst h
        rw [sub_self, abs_zero] at hgap
        exact absurd hgap (by linarith [moveEps_pos])
      · exact h
    rw [if_neg hlt, min_eq_right hlt'.le, max_eq_left hlt'.le]
    simp only [update_alpha_dots_a1dot, update_alpha_dots_a2dot,
      update_params_t_interval, update_params_timestep,
      mk_timestep_t_interval, mk_timestep_timestep]
    have hsum : τ2 + (τ1 - τ2) = τ1 := by ring
    rw [hsum]
    have hc1 : (if τ1 = 0 then (0:ℚ) else τ2 / τ1) = τ2 / τ1 := by
      split_ifs with h
      · rw [h, div_zero]
      · rfl
    have hc2 : (if τ1 = 0 then (0:ℚ) else (τ1 - τ2) / τ1) = (τ1 - τ2) / τ1 := by
      split_ifs with h
      · rw [h, div_zero]
      · rfl
    rw [hc1, hc2, if_neg (by linarith : ¬ τ1 < τ2),
        if_neg (by linarith : ¬ τ1 < τ2)]
    constructor
    · ring
    · ring

lemma unit_check : check_angles { unitRobot with timestep := (1:ℚ) } = true := by
  simp only [check_angles, unitRobot, flatRobot, initRobot]
  norm_num [pyPi]

lemma unit_alpha1 :
    alpha1_t unitRobot.a1 (-pyPi) (1 * unitRobot.t_interval) = .ok (1/2) := by
  simp only [alpha1_t, unitRobot, flatRobot, initRobot]
  norm_num [pyPi]

lemma unit_alpha2 :
    alpha2_t unitRobot.a2 0 (1 * unitRobot.t_interval) = .ok 1 := by
  simp only [alpha2_t, unitRobot, flatRobot, initRobot]
  norm_num [pyPi]

lemma unit_gap : |(1/2 : ℚ) - 1| > moveEps := by
  rw [abs_of_nonpos (by norm_num : (1/2 : ℚ) - 1 ≤ 0)]
  norm_num [moveEps]

lemma unit_move_eq : move zeroOracle unitRobot (-pyPi, 0) 1 true =
    ((move zeroOracle unitRobot (-pyPi, 0) 1 true).1, none) :=
  Prod.ext rfl (by
    rw [@move_eq_of_ok zeroOracle unitRobot (-pyPi, 0) 1 (1/2) 1
        unit_check unit_alpha1 unit_alpha2])

/-- Witness for C3 at a concrete split move: the proximal joint hits its
lower bound at `t1 = 1/2` and is frozen for `t2 = 1/2`. -/
theorem C3_velocity_witness :
    (move zeroOracle unitRobot (-pyPi, 0) 1 true).1.a1dot =
      ((min (1/2 : ℚ) 1 * (-pyPi) + (max (1/2 : ℚ) 1 - min (1/2 : ℚ) 1) *
          (if (1/2 : ℚ) < 1 then 0 else -pyPi)) / max (1/2 : ℚ) 1) *
        (if max (1/2 : ℚ) 1 < unitRobot.t_interval + 1
         then max (1/2 : ℚ) 1 / (unitRobot.t_interval * 1) else 1) ∧
    (move zeroOracle unitRobot (-pyPi, 0) 1 true).1.a2dot =
      ((min (1/2 : ℚ) 1 * 0 + (max (1/2 : ℚ) 1 - min (1/2 : ℚ) 1) *
          (if (1/2 : ℚ) < 1 then 0 else 0)) / max (1/2 : ℚ) 1) *
        (if max (1/2 : ℚ) 1 < unitRobot.t_interval + 1
         then max (1/2 : ℚ) 1 / (unitRobot.t_interval * 1) else 1) :=
  C3_velocity_average unit_alpha1 unit_alpha2 unit_gap unit_move_eq

lemma slow_check : check_angles { slowRobot with timestep := (3:ℚ) } = true := by
  simp only [check_angles, slowRobot, flatRobot, initRobot]
  norm_num [pyPi]

lemma slow_alpha1 :
    alpha1_t slowRobot.a1 (-pyPi/14) (3 * slowRobot.t_interval) = .ok 7 := by
  simp only [alpha1_t, slowRobot, flatRobot, initRobot]
  norm_num [pyPi]

lemma slow_alpha2 :
    alpha2_t slowRobot.a2 (pyPi/16) (3 * slowRobot.t_interval) = .ok 8 := by
  simp only [alpha2_t, slowRobot, flatRobot, initRobot]
  norm_num [pyPi]

lemma slow_gap : |(7:ℚ) - 8| > moveEps := by
  rw [abs_of_nonpos (by norm_num : (7:ℚ) - 8 ≤ 0)]
  norm_num [moveEps]

/-- C3 counterexample to the claim as stated: a split move with `t1 = 7`,
`t2 = 1`, `t_interval = 3`, `timestep = 3`.  The combined duration `8` is
less than the nominal duration `t_interval * timestep = 9`, so the claim
demands the stored velocity be scaled by `8/9`; the source compares `8`
with `t_interval + timestep = 6` instead and stores the unscaled value
`-pi/16`. -/
theorem C3_velocity_counterexample :
    (move zeroOracle slowRobot (-pyPi/14, pyPi/16) 3 true).2 = none ∧
    (move zeroOracle slowRobot (-pyPi/14, pyPi/16) 3 true).1.a1dot =
      -pyPi/16 ∧
    (7 + 1 : ℚ) < slowRobot.t_interval * 3 ∧
    -pyPi/16 ≠ -pyPi/16 * ((7 + 1) / (slowRobot.t_interval * 3)) := by
  have heq := @move_eq_of_ok zeroOracle slowRobot (-pyPi/14, pyPi/16) 3 7 8
    slow_check slow_alpha1 slow_alpha2
  rw [if_pos slow_gap] at heq
  refine ⟨by rw [heq], ?_, ?_, ?_⟩
  · rw [heq]
    show (two_move_branch zeroOracle { slowRobot with timestep := (3:ℚ) }
        (-pyPi/14) (pyPi/16) 7 8).a1dot = -pyPi/16
    unfold two_move_branch
    rw [if_pos (by norm_num : (8:ℚ) > 7), min_eq_left (by norm_num : (7:ℚ) ≤ 8)]
    simp only [update_alpha_dots_a1dot, update_params_t_interval,
      update_params_timestep, mk_timestep_t_interval, mk_timestep_timestep]
    norm_num [slowRobot, flatRobot, initRobot, pyPi]
  · norm_num [slowRobot, flatRobot, initRobot]
  · norm_num [slowRobot, flatRobot, initRobot, pyPi]

/-- C2 (code bug): at `a1 = pi/4`, `a1dot = 4`, nominal duration `1/4`, the
unconstrained endpoint `pi/4 + 1` exceeds the upper limit `pi/2`, yet the
source computes the crossing time as `(0 - a1)/a1dot = -pi/16` — a
*negative* duration using the constant `0` instead of the approached bound
`pi/2`; the claim/spec value would be `(pi/2 - pi/4)/4 = pi/16`. -/
theorem C2_crossing_time_bug :
    alpha1_t (pyPi/4) 4 (1/4) = .ok ((0 - pyPi/4) / 4) ∧
    (0 - pyPi/4) / 4 < 0 ∧
    (0 - pyPi/4) / 4 ≠ (pyPi/2 - pyPi/4) / 4 := by
  refine ⟨?_, by norm_num [pyPi], by norm_num [pyPi]⟩
  unfold alpha1_t
  rw [if_neg (by norm_num [pyPi] : ¬ (pyPi/4 + 4 * (1/4) < -pyPi/2)),
      if_pos (by norm_num [pyPi] : pyPi/4 + 4 * (1/4) > pyPi/2),
      if_neg (by norm_num : ¬ ((4:ℚ) = 0))]

/-- C7 (code bug): `randomize_state` accepts the
`enforce_opposite_angle_signs` flag but never reads it — a call with the
flag set, whose two uniform draws are both `1` (a legal draw, since
`1 < pi/2`), returns the equal-signed pair `(1, 1)`; indeed the flag-on
call is literally the same function as the flag-off call. -/
theorem C7_randomize_ignores_flag :
    (randomize_state initRobot true 1 1).2 = (1, 1) ∧
    (0:ℚ) < 1 ∧ (1:ℚ) < pyPi / 2 ∧
    randomize_state initRobot true 1 1 = randomize_state initRobot false 1 1 := by
  refine ⟨rfl, by norm_num, by norm_num [pyPi], rfl⟩

/-- C8: a joint whose commanded velocity is exactly zero (with its current
angle within the limits) keeps the nominal duration as its bound-crossing
time and triggers no `ZeroDivisionError`: its unconstrained endpoint equals
its current angle, so neither division branch is entered. -/
theorem C8_zero_velocity_safe {a t : ℚ} (h1 : -pyPi / 2 ≤ a)
    (h2 : a ≤ pyPi / 2) :
    alpha1_t a 0 t = .ok t ∧ alpha2_t a 0 t = .ok t := by
  have e : a + 0 * t = a := by ring
  constructor
  · unfold alpha1_t
    rw [e, if_neg (by linarith), if_neg (by linarith)]
  · unfold alpha2_t
    rw [e, if_neg (by linarith), if_neg (by linarith)]

/-- Witness for C8 at `a = 0`, `t = 1`. -/
theorem C8_zero_velocity_witness :
    alpha1_t 0 0 1 = .ok 1 ∧ alpha2_t 0 0 1 = .ok 1 :=
  C8_zero_velocity_safe (by norm_num [pyPi]) (by norm_num [pyPi])

/-- C9: for a positive interval, `discretize` returns the round-half-up
nearest multiple of the interval: it equals `round (val/interval) *
interval` (Mathlib's `round` is `⌊x + 1/2⌋`, i.e. half-up), and its
distance from the input is at most half the interval. -/
theorem C9_discretize_round {v i : ℚ} (hi : 0 < i) :
    discretize v i = (round (v / i) : ℤ) * i ∧
    |discretize v i - v| ≤ i / 2 := by
  have hlt1 : v / i - (⌊v / i⌋ : ℚ) < 1 := by
    have h := Int.fract_lt_one (v / i)
    rwa [← Int.self_sub_floor] at h
  have hge0 : (0:ℚ) ≤ v / i - (⌊v / i⌋ : ℚ) := by
    have h := Int.fract_nonneg (v / i)
    rwa [← Int.self_sub_floor] at h
  have hkey : discretize v i = (round (v / i) : ℤ) * i := by
    unfold discretize
    by_cases hd : v / i - (⌊v / i⌋ : ℚ) ≥ 1/2
    · rw [if_pos hd]
      have hr : round (v / i) = ⌊v / i⌋ + 1 := by
        rw [round_eq]
        have h0 : v / i + 1/2 =
            ((⌊v / i⌋ + 1 : ℤ) : ℚ) + (v / i - ⌊v / i⌋ - 1/2) := by
          push_cast
          ring
        rw [h0, Int.floor_int_add]
        have hfr : ⌊v / i - (⌊v / i⌋ : ℚ) - 1/2⌋ = 0 := by
          rw [Int.floor_eq_zero_iff, Set.mem_Ico]
          exact ⟨by linarith, by linarith⟩
        rw [hfr, add_zero]
      rw [hr]
      push_cast
      ring
    · rw [if_neg hd]
      push_neg at hd
      have hr : round (v / i) = ⌊v / i⌋ := by
        rw [round_eq]
        have h0 : v / i + 1/2 =
            ((⌊v / i⌋ : ℤ) : ℚ) + (v / i - ⌊v / i⌋ + 1/2) := by
          ring
        rw [h0, Int.floor_int_add]
        have hfr : ⌊v / i - (⌊v / i⌋ : ℚ) + 1/2⌋ = 0 := by
          rw [Int.floor_eq_zero_iff, Set.mem_Ico]
          exact ⟨by linarith, by linarith⟩
        rw [hfr, add_zero]
      rw [hr]
  refine ⟨hkey, ?_⟩
  rw [hkey]
  have hv : v / i * i = v := div_mul_cancel₀ v hi.ne'
  have hshow : ((round (v / i) : ℤ) : ℚ) * i - v =
      (((round (v / i) : ℤ) : ℚ) - v / i) * i := by
    rw [sub_mul, hv]
  rw [hshow, abs_mul, abs_of_pos hi, abs_sub_comm]
  have hb := abs_sub_round (v / i)
  calc |v / i - ((round (v / i) : ℤ) : ℚ)| * i ≤ (1/2) * i :=
        mul_le_mul_of_nonneg_right hb hi.le
    _ = i / 2 := by ring

/-- Witness for C9 at `v = 7`, `i = 2` (a half-way tie: `7/2` rounds up). -/
theorem C9_discretize_witness :
    discretize 7 2 = (round ((7:ℚ) / 2) : ℤ) * 2 ∧
    |discretize 7 2 - 7| ≤ 2 / 2 :=
  C9_discretize_round (by norm_num)

/-- C10: the angle-wrapping routine shared by
`SwimmingRobot.enforce_angle_range` and `DeepRobot.enforce_theta_range`
always lands in the closed interval `[-pi, pi]`, is the identity on that
interval (in particular `-pi` is a fixed point), and is idempotent. -/
theorem C10_wrap_props (x : ℚ) :
    (-pyPi ≤ enforce_angle_range x ∧ enforce_angle_range x ≤ pyPi) ∧
    (-pyPi ≤ x → x ≤ pyPi → enforce_angle_range x = x) ∧
    enforce_angle_range (-pyPi) = -pyPi ∧
    enforce_angle_range (enforce_angle_range x) = enforce_angle_range x := by
  refine ⟨enforce_angle_range_mem x,
    fun h1 h2 => enforce_angle_range_id h1 h2, enforce_angle_range_fix, ?_⟩
  have hm := enforce_angle_range_mem x
  exact enforce_angle_range_id hm.1 hm.2

/-- Witness for C10 at the inputs `7` (outside the range) and `1`
(inside). -/
theorem C10_wrap_witness :
    (-pyPi ≤ enforce_angle_range 7 ∧ enforce_angle_range 7 ≤ pyPi) ∧
    enforce_angle_range 1 = 1 ∧
    enforce_angle_range (-pyPi) = -pyPi ∧
    enforce_angle_range (enforce_angle_range 7) = enforce_angle_range 7 :=
  ⟨(C10_wrap_props 7).1,
   (C10_wrap_props 1).2.1 (by norm_num [pyPi]) (by norm_num [pyPi]),
   (C10_wrap_props 7).2.2.1, (C10_wrap_props 7).2.2.2⟩
